import Mathlib

/-!
Shallow embedding of `src/backend/pipeline/stream_fdw.c` (PipelineDB stream
FDW): the stream-scan projection path (`map_field_positions`,
`init_proj_info`, `coerce_raw_input`, `exec_stream_project`,
`BeginStreamScan`, `IterateStreamScan`, `ReScanStreamScan`) and the stream
insert path (`BeginStreamModify`, `ExecStreamInsert`, `EndStreamModify`).

Postgres datums are opaque here (`Datum := Nat`); attribute names are byte
lists compared with an ASCII case-fold, modelling `pg_strcasecmp`.  External
collaborators (the type-coercion catalog lookups, type output/input
functions, descriptor pack/unpack, worker-queue acquisition and the
bounded-queue push) are parameters supplied through small structures, with
their contracts taken from their call sites and, where the collaborator's
code is not part of this file, from the specification.
-/

namespace StreamFdw

/-- Postgres `Datum`: an opaque value representation. -/
abbrev Datum := Nat

/-- ASCII lower-casing of one byte, as done per character by `pg_strcasecmp`
(bytes 65..90 are 'A'..'Z'; high-bit bytes are left alone here). -/
def asciiLower (b : Nat) : Nat := if 65 ≤ b ∧ b ≤ 90 then b + 32 else b

/-- Case-insensitive name equality: `pg_strcasecmp(a, b) == 0`. -/
def nameEq (a b : List Nat) : Bool := a.map asciiLower == b.map asciiLower

/-- Byte list of a string literal, for writing attribute names. -/
def strBytes (s : String) : List Nat := s.data.map Char.toNat

/-- Modelled from the spec: the reserved arrival-time column name
(`ARRIVAL_TIMESTAMP` from the stream headers, matched case-insensitively). -/
def ARRIVAL_TIMESTAMP : List Nat := strBytes "arrival_timestamp"

/-- One attribute of a tuple descriptor (`Form_pg_attribute`): the fields
`exec_stream_project` reads.  `attlen`/`attbyval` only describe the datum's
physical representation, which is opaque here, so they are omitted. -/
structure Attr where
  attname : List Nat
  atttypid : Nat
  atttypmod : Int
  attcollation : Nat
deriving DecidableEq, Repr

/-- A tuple descriptor (`TupleDesc`): an ordered attribute list; `natts` is
the list length. -/
structure TupleDesc where
  attrs : List Attr
deriving DecidableEq, Repr

/-- Placeholder attribute used only to make list indexing total; every
index the code dereferences is proved in bounds where it matters. -/
def dummyAttr : Attr := ⟨[], 0, 0, 0⟩

/-- External collaborators of the projection path: the coercion machinery
(`coerce_to_target_type` + `ExecInitExpr`/`ExecEvalExpr`, collapsed into an
optional evaluated conversion returning a value and its null flag) and the
per-type output/input functions used by `coerce_raw_input`. -/
structure TypeSystem where
  /-- `coerce_to_target_type(NULL, const, srctype, dsttype, dsttypmod,
  COERCION_ASSIGNMENT, COERCE_IMPLICIT_CAST, -1)`, composed with expression
  evaluation: `none` when no conversion path exists, otherwise the function
  from the source datum to the cast result and its null flag. -/
  coerce_to_target_type : Nat → Int → Nat → Nat → Int → Option (Datum → Datum × Bool)
  /-- `getTypeOutputInfo` + `OidOutputFunctionCall`: render a datum of the
  given type to its external text form. -/
  typeOutput : Nat → Datum → List Nat
  /-- `getTypeInputInfo` + `OidInputFunctionCall` (typmod -1): parse text as
  a value of the given type. -/
  typeInput : Nat → List Nat → Datum

/-- `coerce_raw_input`: convert a value to its original user input
representation with the source type's output function, then read it back
with the target type's input function. -/
def coerce_raw_input (ts : TypeSystem) (value : Datum) (intype outtype : Nat) : Datum :=
  ts.typeInput outtype (ts.typeOutput intype value)

/-- First index of an attribute satisfying `p`, scanning left to right
(`none` when no attribute matches). -/
def firstIdxWhere (p : Attr → Bool) : List Attr → Option Nat
  | [] => none
  | a :: rest => if p a then some 0 else (firstIdxWhere p rest).map (· + 1)

/-- `map_field_positions`: for each attribute of `evdesc`, the position of
the first attribute of `desc` with the same name under `pg_strcasecmp`, or
-1 when no attribute of `desc` matches. -/
def map_field_positions (evdesc desc : TupleDesc) : List Int :=
  evdesc.attrs.map (fun a =>
    match firstIdxWhere (fun b => nameEq a.attname b.attname) desc.attrs with
    | some j => Int.ofNat j
    | none => -1)

/-- `StreamProjectionInfo`: the per-scan projection state.  The memory
context and expression context carry no projection-relevant data and are
omitted; `curslot` is represented by the descriptor it is built over. -/
structure StreamProjectionInfo where
  eventdesc : TupleDesc
  resultdesc : TupleDesc
  curslot : TupleDesc
  attrmap : List Int
  raweventdesc : Option (List Nat)
deriving DecidableEq, Repr

/-- `StreamTupleState`: one incoming stream event, as read by the scan
side: the packed event descriptor bytes, the event tuple's values (`none`
is a SQL null, position `i` is `slot_getattr(slot, i+1)`), and the arrival
timestamp datum.  The embedded record descriptors only feed a process-wide
record-type cache (external, reset per scan) and are omitted. -/
structure StreamTupleState where
  desc : List Nat
  tup : List (Option Datum)
  arrival_time : Datum
deriving DecidableEq, Repr

/-- `init_proj_info`: rebuild the cached projection state for a new event
descriptor: unpack it, rebuild the attribute map against the result
descriptor, make a fresh slot over it, and cache a copy of the raw bytes.
(`UnpackTupleDesc` is the external descriptor decoder, a parameter.) -/
def init_proj_info (unpack : List Nat → TupleDesc) (pi : StreamProjectionInfo)
    (sts : StreamTupleState) : StreamProjectionInfo :=
  let evdesc := unpack sts.desc
  { pi with
      eventdesc := evdesc,
      attrmap := map_field_positions evdesc pi.resultdesc,
      curslot := evdesc,
      raweventdesc := some sts.desc }

/-- Pair every event attribute with its map entry and the event tuple's
value at that position, in order: the data the projection loop of
`exec_stream_project` reads at index `i`. -/
def zipFields : List Attr → List Int → List (Option Datum) → List (Attr × Int × Option Datum)
  | a :: as, o :: os, v :: vs => (a, o, v) :: zipFields as os vs
  | _, _, _ => []

/-- One field's landed value and null flag, given the event attribute, the
destination attribute and the non-null source datum: same types copy the
value; differing types take the evaluated cast when `coerce_to_target_type`
offers one (its null flag overwriting the `nulls[outatt] = false` set just
before), and otherwise fall back to `coerce_raw_input`. -/
def fieldResult (ts : TypeSystem) (evatt datt : Attr) (v : Datum) : Datum × Bool :=
  if evatt.atttypid = datt.atttypid then (v, false)
  else
    match ts.coerce_to_target_type evatt.atttypid evatt.atttypmod evatt.attcollation
        datt.atttypid datt.atttypmod with
    | some f => f v
    | none => (coerce_raw_input ts v evatt.atttypid datt.atttypid, false)

/-- The projection loop of `exec_stream_project`: for each event field,
skip it when unmapped (`outatt < 0`) or null, and otherwise store
`fieldResult` at the mapped output position. -/
def projectFields (ts : TypeSystem) (desc : TupleDesc) :
    List (Attr × Int × Option Datum) → List Datum → List Bool → List Datum × List Bool
  | [], vals, nulls => (vals, nulls)
  | (evatt, outatt, v?) :: rest, vals, nulls =>
    if outatt < 0 then projectFields ts desc rest vals nulls
    else
      match v? with
      | none => projectFields ts desc rest vals nulls
      | some v =>
        projectFields ts desc rest
          (vals.set outatt.toNat
            (fieldResult ts evatt (desc.attrs.getD outatt.toNat dummyAttr) v).1)
          (nulls.set outatt.toNat
            (fieldResult ts evatt (desc.attrs.getD outatt.toNat dummyAttr) v).2)

/-- Position of the first result attribute named `ARRIVAL_TIMESTAMP`
(case-insensitively), the loop that breaks on its first hit. -/
def find_arrival_idx (attrs : List Attr) : Option Nat :=
  firstIdxWhere (fun a => nameEq a.attname ARRIVAL_TIMESTAMP) attrs

/-- `exec_stream_project`: start from an all-null output row, run the
projection loop over the event's fields, then, if the result descriptor has
an `arrival_timestamp` attribute, overwrite its first occurrence with the
event's arrival timestamp and mark it non-null.  The result models the
`(values, nulls)` arrays passed to `heap_form_tuple`. -/
def exec_stream_project (ts : TypeSystem) (pi : StreamProjectionInfo)
    (sts : StreamTupleState) : List Datum × List Bool :=
  let desc := pi.resultdesc
  let r := projectFields ts desc (zipFields pi.eventdesc.attrs pi.attrmap sts.tup)
    (List.replicate desc.attrs.length 0) (List.replicate desc.attrs.length true)
  match find_arrival_idx desc.attrs with
  | some k => (r.1.set k sts.arrival_time, r.2.set k false)
  | none => r

/-- `StreamScanState`: the scan-lifetime state the claims mention: the
projection info and the tuple/byte counters. -/
structure StreamScanState where
  pi : StreamProjectionInfo
  ntuples : Nat
  nbytes : Nat
deriving DecidableEq, Repr

/-- The descriptor-change test of `IterateStreamScan`: rebuild when nothing
is cached, the varlena sizes differ, or the bytes differ (`piraw == NULL ||
VARSIZE(piraw) != VARSIZE(tupraw) || memcmp(...)`). -/
def descChanged (piraw : Option (List Nat)) (tupraw : List Nat) : Bool :=
  match piraw with
  | none => true
  | some bs => bs.length != tupraw.length || bs != tupraw

/-- `IterateStreamScan`: take the next message from the executor (already
yielded here as `msg`, `none` meaning no event); on an event, bump the
tuple/byte counters, rebuild the projection info only when the incoming
raw descriptor differs from the cached one, and project.  The returned
`Bool` records whether `init_proj_info` ran on this call. -/
def IterateStreamScan (ts : TypeSystem) (unpack : List Nat → TupleDesc)
    (state : StreamScanState) (msg : Option (StreamTupleState × Nat)) :
    Option (List Datum × List Bool) × StreamScanState × Bool :=
  match msg with
  | none => (none, state, false)
  | some (sts, len) =>
    let rebuilt := descChanged state.pi.raweventdesc sts.desc
    let pi := if rebuilt then init_proj_info unpack state.pi sts else state.pi
    let tup := exec_stream_project ts pi sts
    (some tup, { pi := pi, ntuples := state.ntuples + 1, nbytes := state.nbytes + len }, rebuilt)

/-- Rename the attributes of a descriptor positionally from a column-name
list: the `foreach(lc, colnames) namestrcpy(...)` loop of
`BeginStreamScan`. -/
def setAttNames (desc : TupleDesc) (colnames : List (List Nat)) : TupleDesc :=
  ⟨(desc.attrs.zip colnames).map (fun p => { p.1 with attname := p.2 })⟩

/-- `BeginStreamScan`: build the scan state from the plan's column names
and physical target-list descriptor (`ExecTypeFromTL`, an input here).  The
code asserts `natts == list_length(colnames)` before renaming the result
attributes; the failed assertion is modelled as `none`.  `raweventdesc` is
explicitly `NULL`, so the first event always rebuilds the projection
info. -/
def BeginStreamScan (colnames : List (List Nat)) (physdesc : TupleDesc) :
    Option StreamScanState :=
  if physdesc.attrs.length = colnames.length then
    some
      { pi :=
          { eventdesc := ⟨[]⟩, resultdesc := setAttNames physdesc colnames,
            curslot := ⟨[]⟩, attrmap := [], raweventdesc := none },
        ntuples := 0, nbytes := 0 }
  else none

/-- `ReScanStreamScan`: the callback body is empty; the scan state is
returned untouched. -/
def ReScanStreamScan (node : StreamScanState) : StreamScanState := node

/-- `StreamInsertState`: the per-insert router state.  `flags` is reduced
to its one tested bit (`REENTRANT_STREAM_INSERT`); `ack` records whether an
`InsertBatchAck` was allocated; `batch` holds the created batch's id;
`worker_queue` is the index of the currently locked worker queue, `none`
when no queue was acquired.  The descriptor fields (`desc`, `packed_desc`)
only feed serialization, which is abstracted into the per-row length. -/
structure StreamInsertState where
  reentrant : Bool
  targets : List Nat
  ack : Bool
  batch : Option Nat
  count : Nat
  bytes : Nat
  num_batches : Nat
  worker_queue : Option Nat
deriving DecidableEq, Repr

/-- `BeginStreamModify`: look up the stream's current readers; when there
are none, acquire no queue and create no batch/ack state.  Otherwise create
the batch and ack when synchronous inserts are on, and lock a worker queue:
a combiner process pins `group_id % continuous_query_num_workers`, anyone
else takes any available queue (`any_queue`, the external
`get_any_worker_queue_with_lock` result). -/
def BeginStreamModify (synchronous is_combiner : Bool) (group_id num_workers : Nat)
    (batch_id : Nat) (any_queue : Nat) (targets : List Nat) (reentrant_flag : Bool) :
    StreamInsertState :=
  if targets.isEmpty then
    { reentrant := reentrant_flag, targets := targets, ack := false, batch := none,
      count := 0, bytes := 0, num_batches := 1, worker_queue := none }
  else
    { reentrant := reentrant_flag, targets := targets, ack := synchronous,
      batch := if synchronous then some batch_id else none,
      count := 0, bytes := 0, num_batches := 1,
      worker_queue := some (if is_combiner then group_id % num_workers else any_queue) }

/-- Nondeterminism oracle for one `ExecStreamInsert` call: `pick k` is the
queue returned by the k-th `get_any_worker_queue_with_lock` call (k = 0 at
the batch boundary, k = n for retry n), and `ok n` is whether the n-th
`ipc_queue_push_nolock` call finds space (n = 0 for the initial push). -/
structure InsertEnv where
  pick : Nat → Nat
  ok : Nat → Bool

/-- Modelled from the spec: `ipc_queue_push_nolock(queue, msg, len,
must_not_fail)` on the bounded worker queue (external, §1/§4.4): it may
return false when the queue is full, except that with the must-not-fail
flag set it blocks until space is available and succeeds. -/
def ipc_queue_push_nolock (env : InsertEnv) (_q : Nat) (attempt : Nat)
    (must_not_fail : Bool) : Bool :=
  must_not_fail || env.ok attempt

/-- The queue-full retry loop of `ExecStreamInsert` (`do { ntries++; unlock;
relock any queue } while (!push(..., ntries == num_workers))`), with explicit
fuel standing for the loop's a-priori iteration bound; returns the finally
held queue and the trace of attempted pushes as (queue, must-not-fail flag)
pairs.  `none` means the fuel ran out before a push succeeded. -/
def retry_loop (env : InsertEnv) (num_workers : Nat) :
    Nat → Nat → Option (Nat × List (Nat × Bool))
  | 0, _ => none
  | fuel + 1, ntries =>
    let n := ntries + 1
    let q := env.pick n
    let flag := decide (n = num_workers)
    if ipc_queue_push_nolock env q n flag then some (q, [(q, flag)])
    else
      match retry_loop env num_workers fuel n with
      | some (qf, tr) => some (qf, (q, flag) :: tr)
      | none => none

/-- `ExecStreamInsert`: serialize the row (`StreamTupleStateCreate`, always
executed; its length is `len`), and if a worker queue is held: switch to a
new queue after every `continuous_query_batch_size` rows, push without the
must-not-fail flag, and on failure run the retry loop (bumping
`num_batches` once).  Row and byte counters are bumped on every path.  The
returned list is the trace of attempted pushes as (queue, must-not-fail
flag) pairs; the last attempt of the trace is the one that succeeded. -/
def ExecStreamInsert (env : InsertEnv) (batch_size num_workers : Nat)
    (sis : StreamInsertState) (len : Nat) :
    Option (StreamInsertState × List (Nat × Bool)) :=
  match sis.worker_queue with
  | none => some ({ sis with count := sis.count + 1, bytes := sis.bytes + len }, [])
  | some q0 =>
    let switch := sis.count != 0 && sis.count % batch_size == 0
    let q1 := if switch then env.pick 0 else q0
    let nb1 := if switch then sis.num_batches + 1 else sis.num_batches
    if ipc_queue_push_nolock env q1 0 false then
      some ({ sis with worker_queue := some q1, num_batches := nb1,
                       count := sis.count + 1, bytes := sis.bytes + len }, [(q1, false)])
    else
      match retry_loop env num_workers num_workers 0 with
      | some (qf, tr) =>
        some ({ sis with worker_queue := some qf, num_batches := nb1 + 1,
                         count := sis.count + 1, bytes := sis.bytes + len }, (q1, false) :: tr)
      | none => none

/-- `EndStreamModify`: after reporting stats, when a worker queue is held it
is unlocked, and `InsertBatchWaitAndRemove(sis->batch, sis->count)` runs
exactly when the insert is not re-entrant and synchronous inserts are on.
The result is `some (batch, expected_count)` when the wait is performed and
`none` when it is skipped. -/
def EndStreamModify (synchronous : Bool) (sis : StreamInsertState) :
    Option (Option Nat × Nat) :=
  match sis.worker_queue with
  | none => none
  | some _ =>
    if ¬sis.reentrant ∧ synchronous then some (sis.batch, sis.count) else none

/-- An entry of the projection loop writes output position `j` exactly when
its map entry is `j` (so in particular not the -1 sentinel) and its source
value is non-null. -/
def entryWrites (j : Nat) (e : Attr × Int × Option Datum) : Bool :=
  decide (e.2.1 = Int.ofNat j) && e.2.2.isSome

theorem firstIdxWhere_eq_none (p : Attr → Bool) (l : List Attr) :
    firstIdxWhere p l = none ↔ ∀ a ∈ l, p a = false := by
  induction l with
  | nil => simp [firstIdxWhere]
  | cons a rest ih =>
    by_cases h : p a = true
    · simp [firstIdxWhere, h]
    · have h' : p a = false := by simpa using h
      simp [firstIdxWhere, h', ih]

theorem firstIdxWhere_eq_some (p : Attr → Bool) (l : List Attr) (j : Nat)
    (h : firstIdxWhere p l = some j) :
    (∃ a, l[j]? = some a ∧ p a = true) ∧
      ∀ k, k < j → ∀ a, l[k]? = some a → p a = false := by
  induction l generalizing j with
  | nil => simp [firstIdxWhere] at h
  | cons a rest ih =>
    by_cases hp : p a = true
    · simp [firstIdxWhere, hp] at h
      subst h
      exact ⟨⟨a, by simp, hp⟩, fun k hk => by omega⟩
    · simp [firstIdxWhere, hp] at h
      obtain ⟨j', hj', rfl⟩ := h
      obtain ⟨⟨b, hb, hpb⟩, hlt⟩ := ih j' hj'
      refine ⟨⟨b, by simpa using hb, hpb⟩, ?_⟩
      intro k hk c hc
      cases k with
      | zero =>
        simp at hc
        subst hc
        simpa using hp
      | succ k' => exact hlt k' (by omega) c (by simpa using hc)

theorem firstIdxWhere_lt_length (p : Attr → Bool) (l : List Attr) (j : Nat)
    (h : firstIdxWhere p l = some j) : j < l.length := by
  obtain ⟨⟨a, ha, _⟩, _⟩ := firstIdxWhere_eq_some p l j h
  by_contra hge
  rw [List.getElem?_eq_none (by omega)] at ha
  exact Option.noConfusion ha

theorem descChanged_iff (o : Option (List Nat)) (d : List Nat) :
    descChanged o d = true ↔ o ≠ some d := by
  cases o with
  | none => simp [descChanged]
  | some bs =>
    simp [descChanged]
    intro hlen he
    subst he
    exact hlen rfl

theorem projectFields_length (ts : TypeSystem) (desc : TupleDesc)
    (L : List (Attr × Int × Option Datum)) (vals : List Datum) (nulls : List Bool) :
    (projectFields ts desc L vals nulls).1.length = vals.length ∧
      (projectFields ts desc L vals nulls).2.length = nulls.length := by
  induction L generalizing vals nulls with
  | nil => simp [projectFields]
  | cons e rest ih =>
    obtain ⟨evatt, outatt, v?⟩ := e
    by_cases h : outatt < 0
    · simpa [projectFields, h] using ih vals nulls
    · cases v? with
      | none => simpa [projectFields, h] using ih vals nulls
      | some v =>
        simpa [projectFields, h, List.length_set] using ih (vals.set _ _) (nulls.set _ _)

theorem projectFields_not_written (ts : TypeSystem) (desc : TupleDesc) (j : Nat)
    (L : List (Attr × Int × Option Datum)) (vals : List Datum) (nulls : List Bool)
    (hw : ∀ e ∈ L, entryWrites j e = false) :
    (projectFields ts desc L vals nulls).1[j]? = vals[j]? ∧
      (projectFields ts desc L vals nulls).2[j]? = nulls[j]? := by
  induction L generalizing vals nulls with
  | nil => simp [projectFields]
  | cons e rest ih =>
    obtain ⟨evatt, outatt, v?⟩ := e
    have hrest : ∀ e ∈ rest, entryWrites j e = false :=
      fun e he => hw e (List.mem_cons_of_mem _ he)
    by_cases h : outatt < 0
    · simpa [projectFields, h] using ih vals nulls hrest
    · cases v? with
      | none => simpa [projectFields, h] using ih vals nulls hrest
      | some v =>
        have hhead := hw _ (List.mem_cons_self _ _)
        have hne : outatt.toNat ≠ j := by
          simp [entryWrites] at hhead
          omega
        obtain ⟨h1, h2⟩ := ih
          (vals.set outatt.toNat (fieldResult ts evatt (desc.attrs.getD outatt.toNat dummyAttr) v).1)
          (nulls.set outatt.toNat (fieldResult ts evatt (desc.attrs.getD outatt.toNat dummyAttr) v).2)
          hrest
        simp only [projectFields, h, if_false]
        exact ⟨h1.trans (List.getElem?_set_ne hne), h2.trans (List.getElem?_set_ne hne)⟩

theorem projectFields_last_writer (ts : TypeSystem) (desc : TupleDesc) (j : Nat)
    (evatt : Attr) (v : Datum)
    (L1 L2 : List (Attr × Int × Option Datum)) (vals : List Datum) (nulls : List Bool)
    (hw : ∀ e ∈ L2, entryWrites j e = false)
    (hv : j < vals.length) (hn : j < nulls.length) :
    (projectFields ts desc (L1 ++ (evatt, Int.ofNat j, some v) :: L2) vals nulls).1[j]? =
      some (fieldResult ts evatt (desc.attrs.getD j dummyAttr) v).1 ∧
    (projectFields ts desc (L1 ++ (evatt, Int.ofNat j, some v) :: L2) vals nulls).2[j]? =
      some (fieldResult ts evatt (desc.attrs.getD j dummyAttr) v).2 := by
  induction L1 generalizing vals nulls with
  | nil =>
    have hneg : ¬((j : Int) < 0) := by omega
    obtain ⟨h1, h2⟩ := projectFields_not_written ts desc j L2
      (vals.set j (fieldResult ts evatt (desc.attrs.getD j dummyAttr) v).1)
      (nulls.set j (fieldResult ts evatt (desc.attrs.getD j dummyAttr) v).2) hw
    simp only [List.nil_append, projectFields, hneg, if_false, Int.ofNat_eq_coe,
      Int.toNat_ofNat] at h1 h2 ⊢
    rw [h1, h2, List.getElem?_set_self (by simpa using hv),
      List.getElem?_set_self (by simpa using hn)]
    exact ⟨rfl, rfl⟩
  | cons e L1' ih =>
    obtain ⟨a, o, w?⟩ := e
    by_cases h : o < 0
    · simpa [projectFields, h] using ih vals nulls hv hn
    · cases w? with
      | none => simpa [projectFields, h] using ih vals nulls hv hn
      | some w =>
        simp only [List.cons_append, projectFields, h, if_false]
        exact ih
          (vals.set o.toNat (fieldResult ts a (desc.attrs.getD o.toNat dummyAttr) w).1)
          (nulls.set o.toNat (fieldResult ts a (desc.attrs.getD o.toNat dummyAttr) w).2)
          (by simpa using hv) (by simpa using hn)

theorem exec_stream_project_at (ts : TypeSystem) (pi : StreamProjectionInfo)
    (sts : StreamTupleState) (j : Nat)
    (harr : find_arrival_idx pi.resultdesc.attrs ≠ some j) :
    (exec_stream_project ts pi sts).1[j]? =
      (projectFields ts pi.resultdesc (zipFields pi.eventdesc.attrs pi.attrmap sts.tup)
        (List.replicate pi.resultdesc.attrs.length 0)
        (List.replicate pi.resultdesc.attrs.length true)).1[j]? ∧
    (exec_stream_project ts pi sts).2[j]? =
      (projectFields ts pi.resultdesc (zipFields pi.eventdesc.attrs pi.attrmap sts.tup)
        (List.replicate pi.resultdesc.attrs.length 0)
        (List.replicate pi.resultdesc.attrs.length true)).2[j]? := by
  simp only [exec_stream_project]
  split
  next k heq =>
    have hkj : k ≠ j := fun he => harr (he ▸ heq)
    exact ⟨List.getElem?_set_ne hkj, List.getElem?_set_ne hkj⟩
  next heq => exact ⟨rfl, rfl⟩

/-- C1 (amended): the field map built by `map_field_positions` has exactly
one entry per source field, each entry being either the index of the first
destination field whose name matches the source field's case-insensitively,
or the unmapped sentinel -1; and in the projected row every destination
field other than the reserved arrival-time field that is not assigned from
a mapped, non-null source value remains null. -/
theorem c1_field_map_and_null_preservation
    (evdesc desc : TupleDesc) (ts : TypeSystem) (pi : StreamProjectionInfo)
    (sts : StreamTupleState) (i j : Nat) :
    (map_field_positions evdesc desc).length = evdesc.attrs.length ∧
    (∀ x, (map_field_positions evdesc desc)[i]? = some x →
      ∃ a, evdesc.attrs[i]? = some a ∧
        ((x = -1 ∧ ∀ b ∈ desc.attrs, nameEq a.attname b.attname = false) ∨
         (∃ k, x = Int.ofNat k ∧
           (∃ b, desc.attrs[k]? = some b ∧ nameEq a.attname b.attname = true) ∧
           ∀ m, m < k → ∀ b, desc.attrs[m]? = some b →
             nameEq a.attname b.attname = false))) ∧
    (j < pi.resultdesc.attrs.length →
      find_arrival_idx pi.resultdesc.attrs ≠ some j →
      (∀ e ∈ zipFields pi.eventdesc.attrs pi.attrmap sts.tup, entryWrites j e = false) →
      (exec_stream_project ts pi sts).2[j]? = some true) := by
  refine ⟨by simp [map_field_positions], ?_, ?_⟩
  · intro x hx
    rw [map_field_positions, List.getElem?_map] at hx
    cases ha : evdesc.attrs[i]? with
    | none => rw [ha] at hx; exact Option.noConfusion hx
    | some a =>
      rw [ha] at hx
      simp only [Option.map_some'] at hx
      refine ⟨a, rfl, ?_⟩
      cases hf : firstIdxWhere (fun b => nameEq a.attname b.attname) desc.attrs with
      | none =>
        rw [hf] at hx
        simp at hx
        subst hx
        refine Or.inl ⟨rfl, ?_⟩
        have := (firstIdxWhere_eq_none (fun b => nameEq a.attname b.attname) desc.attrs).mp hf
        exact fun b hb => this b hb
      | some k =>
        rw [hf] at hx
        simp at hx
        subst hx
        obtain ⟨⟨b, hb, hpb⟩, hfirst⟩ :=
          firstIdxWhere_eq_some (fun b => nameEq a.attname b.attname) desc.attrs k hf
        exact Or.inr ⟨k, rfl, ⟨b, hb, hpb⟩, fun m hm c hc => hfirst m hm c hc⟩
  · intro hj harr hw
    obtain ⟨-, h2⟩ := exec_stream_project_at ts pi sts j harr
    rw [h2, (projectFields_not_written ts pi.resultdesc j _ _ _ hw).2,
      List.getElem?_replicate_of_lt hj]

/-- C1 counterexample: with an empty source event and a destination schema
consisting of one `arrival_timestamp` column, no destination field is
assigned from a mapped, non-null source value (the projection loop sees no
entries at all), yet the projected row's only field is non-null — so the
claim that every such field remains null is false. -/
def tsTrivial : TypeSystem :=
  ⟨fun _ _ _ _ _ => none, fun _ _ => [], fun _ _ => 0⟩

def piArrivalOnly : StreamProjectionInfo :=
  ⟨⟨[]⟩, ⟨[⟨strBytes "arrival_timestamp", 1184, -1, 0⟩]⟩, ⟨[]⟩, [], none⟩

def stsEmptyEvent : StreamTupleState := ⟨[], [], 77⟩

/-- C1 counterexample theorem: the projection loop receives no entries, so
destination field 0 is not assigned from any mapped, non-null source value,
yet it does not remain null in the projected row. -/
theorem c1_null_preservation_counterexample :
    zipFields piArrivalOnly.eventdesc.attrs piArrivalOnly.attrmap stsEmptyEvent.tup = [] ∧
    (exec_stream_project tsTrivial piArrivalOnly stsEmptyEvent).2[0]? = some false := by
  exact ⟨rfl, rfl⟩

theorem exec_stream_project_last_writer (ts : TypeSystem) (pi : StreamProjectionInfo)
    (sts : StreamTupleState) (L1 L2 : List (Attr × Int × Option Datum))
    (evatt : Attr) (j : Nat) (v : Datum)
    (hsplit : zipFields pi.eventdesc.attrs pi.attrmap sts.tup =
      L1 ++ (evatt, Int.ofNat j, some v) :: L2)
    (hlast : ∀ e ∈ L2, entryWrites j e = false)
    (hj : j < pi.resultdesc.attrs.length)
    (harr : find_arrival_idx pi.resultdesc.attrs ≠ some j) :
    (exec_stream_project ts pi sts).1[j]? =
      some (fieldResult ts evatt (pi.resultdesc.attrs.getD j dummyAttr) v).1 ∧
    (exec_stream_project ts pi sts).2[j]? =
      some (fieldResult ts evatt (pi.resultdesc.attrs.getD j dummyAttr) v).2 := by
  obtain ⟨h1, h2⟩ := exec_stream_project_at ts pi sts j harr
  rw [h1, h2, hsplit]
  exact projectFields_last_writer ts pi.resultdesc j evatt v L1 L2 _ _ hlast
    (by simpa using hj) (by simpa using hj)

/-- C3: for a source field whose type differs from its mapped destination
field's type (here the last entry writing position `j`), the projector
evaluates the assignment-cast conversion whenever `coerce_to_target_type`
offers one, and only when it offers none does it fall back to rendering the
value with the source type's output function and parsing the text with the
destination type's input function. -/
theorem c3_coercion_two_tier (ts : TypeSystem) (pi : StreamProjectionInfo)
    (sts : StreamTupleState) (L1 L2 : List (Attr × Int × Option Datum))
    (evatt : Attr) (j : Nat) (v : Datum)
    (hsplit : zipFields pi.eventdesc.attrs pi.attrmap sts.tup =
      L1 ++ (evatt, Int.ofNat j, some v) :: L2)
    (hlast : ∀ e ∈ L2, entryWrites j e = false)
    (hj : j < pi.resultdesc.attrs.length)
    (harr : find_arrival_idx pi.resultdesc.attrs ≠ some j)
    (hty : evatt.atttypid ≠ (pi.resultdesc.attrs.getD j dummyAttr).atttypid) :
    (∀ f, ts.coerce_to_target_type evatt.atttypid evatt.atttypmod evatt.attcollation
        (pi.resultdesc.attrs.getD j dummyAttr).atttypid
        (pi.resultdesc.attrs.getD j dummyAttr).atttypmod = some f →
      (exec_stream_project ts pi sts).1[j]? = some (f v).1 ∧
      (exec_stream_project ts pi sts).2[j]? = some (f v).2) ∧
    (ts.coerce_to_target_type evatt.atttypid evatt.atttypmod evatt.attcollation
        (pi.resultdesc.attrs.getD j dummyAttr).atttypid
        (pi.resultdesc.attrs.getD j dummyAttr).atttypmod = none →
      (exec_stream_project ts pi sts).1[j]? =
        some (ts.typeInput (pi.resultdesc.attrs.getD j dummyAttr).atttypid
          (ts.typeOutput evatt.atttypid v)) ∧
      (exec_stream_project ts pi sts).2[j]? = some false) := by
  obtain ⟨h1, h2⟩ :=
    exec_stream_project_last_writer ts pi sts L1 L2 evatt j v hsplit hlast hj harr
  constructor
  · intro f hf
    rw [h1, h2]
    simp only [fieldResult]
    rw [if_neg hty, hf]
    exact ⟨rfl, rfl⟩
  · intro hf
    rw [h1, h2]
    simp only [fieldResult]
    rw [if_neg hty, hf]
    exact ⟨rfl, rfl⟩

/-- C4: whenever the destination schema contains the reserved arrival-time
column (first matching attribute at position `k`, matched by the fixed
case-insensitive name), the projected row's arrival-time field equals the
event's arrival timestamp and is non-null, regardless of what the mapping
loop placed there. -/
theorem c4_arrival_time_override (ts : TypeSystem) (pi : StreamProjectionInfo)
    (sts : StreamTupleState) (k : Nat)
    (h : find_arrival_idx pi.resultdesc.attrs = some k) :
    (exec_stream_project ts pi sts).1[k]? = some sts.arrival_time ∧
    (exec_stream_project ts pi sts).2[k]? = some false := by
  have hk : k < pi.resultdesc.attrs.length :=
    firstIdxWhere_lt_length _ pi.resultdesc.attrs k h
  obtain ⟨hl1, hl2⟩ := projectFields_length ts pi.resultdesc
    (zipFields pi.eventdesc.attrs pi.attrmap sts.tup)
    (List.replicate pi.resultdesc.attrs.length 0)
    (List.replicate pi.resultdesc.attrs.length true)
  simp only [exec_stream_project]
  rw [h]
  constructor
  · rw [List.getElem?_set_self (by simp [hl1, hk])]
  · rw [List.getElem?_set_self (by simp [hl2, hk])]

theorem iterate_caches_raw_desc (ts : TypeSystem) (unpack : List Nat → TupleDesc)
    (s : StreamScanState) (sts : StreamTupleState) (len : Nat) :
    (IterateStreamScan ts unpack s (some (sts, len))).2.1.pi.raweventdesc = some sts.desc := by
  simp only [IterateStreamScan]
  by_cases h : descChanged s.pi.raweventdesc sts.desc = true
  · simp [h, init_proj_info]
  · have hne := (not_iff_not.mpr (descChanged_iff s.pi.raweventdesc sts.desc)).mp h
    simp only [Bool.not_eq_true] at h
    simp [h]
    simpa using hne

/-- C2: on each event, `IterateStreamScan` rebuilds the projection info
(via `init_proj_info`) exactly when no raw descriptor is cached or the
incoming event's serialized descriptor bytes differ from the cached bytes;
consequently a second consecutive event with byte-identical serialized
descriptor is projected without rebuilding, reusing the cached projection
info (event descriptor, attribute map, slot and raw bytes) unchanged. -/
theorem c2_descriptor_cache (ts : TypeSystem) (unpack : List Nat → TupleDesc)
    (s : StreamScanState) (sts1 sts2 : StreamTupleState) (len1 len2 : Nat) :
    ((IterateStreamScan ts unpack s (some (sts1, len1))).2.2 = true ↔
      s.pi.raweventdesc ≠ some sts1.desc) ∧
    (sts2.desc = sts1.desc →
      (IterateStreamScan ts unpack
        ((IterateStreamScan ts unpack s (some (sts1, len1))).2.1)
        (some (sts2, len2))).2.2 = false ∧
      (IterateStreamScan ts unpack
        ((IterateStreamScan ts unpack s (some (sts1, len1))).2.1)
        (some (sts2, len2))).2.1.pi =
        (IterateStreamScan ts unpack s (some (sts1, len1))).2.1.pi) := by
  constructor
  · simpa [IterateStreamScan] using descChanged_iff s.pi.raweventdesc sts1.desc
  · intro hd
    have hcache := iterate_caches_raw_desc ts unpack s sts1 len1
    have hnochange :
        descChanged ((IterateStreamScan ts unpack s
          (some (sts1, len1))).2.1).pi.raweventdesc sts2.desc = false := by
      rw [hcache, hd]
      simp [descChanged]
    have hnochange' :
        descChanged ((if descChanged s.pi.raweventdesc sts1.desc = true
          then init_proj_info unpack s.pi sts1 else s.pi).raweventdesc) sts2.desc = false := by
      simpa only [IterateStreamScan] using hnochange
    constructor
    · simp only [IterateStreamScan]
      exact hnochange'
    · simp only [IterateStreamScan]
      rw [hnochange']
      simp

/-- Positionally renaming the attributes of a descriptor from a same-length
column-name list yields exactly those names, one attribute per name. -/
theorem setAttNames_names (l : List Attr) (cn : List (List Nat)) (h : l.length = cn.length) :
    ((l.zip cn).map (fun p => { p.1 with attname := p.2 })).map Attr.attname = cn := by
  induction l generalizing cn with
  | nil => cases cn with
    | nil => rfl
    | cons c cs => simp at h
  | cons a rest ih =>
    cases cn with
    | nil => simp at h
    | cons c cs =>
      simp only [List.zip_cons_cons, List.map_cons]
      rw [ih cs (by simpa using h)]

/-- C9: beginning a stream scan with a destination schema whose field count
does not match the expected column-name list fails at initialization (the
assertion in `BeginStreamScan`), and under the matching-count precondition
every initialized scan's result descriptor has exactly one attribute per
expected column name, in order. -/
theorem c9_schema_mismatch_fatal (colnames : List (List Nat)) (physdesc : TupleDesc) :
    ((BeginStreamScan colnames physdesc).isSome = true ↔
      physdesc.attrs.length = colnames.length) ∧
    (∀ s, BeginStreamScan colnames physdesc = some s →
      s.pi.resultdesc.attrs.map Attr.attname = colnames) := by
  constructor
  · by_cases h : physdesc.attrs.length = colnames.length <;> simp [BeginStreamScan, h]
  · intro s hs
    by_cases h : physdesc.attrs.length = colnames.length
    · simp only [BeginStreamScan, h, if_true] at hs
      cases hs
      simpa [setAttNames] using setAttNames_names physdesc.attrs colnames h
    · simp [BeginStreamScan, h] at hs

/-- C10: the rescan callback has an empty body, so it leaves the whole scan
state — the projection info with its cached descriptor and attribute map,
and the tuple/byte counters — exactly unchanged. -/
theorem c10_rescan_noop (s : StreamScanState) :
    ReScanStreamScan s = s ∧
    (ReScanStreamScan s).pi.eventdesc = s.pi.eventdesc ∧
    (ReScanStreamScan s).pi.attrmap = s.pi.attrmap ∧
    (ReScanStreamScan s).pi.raweventdesc = s.pi.raweventdesc ∧
    (ReScanStreamScan s).ntuples = s.ntuples ∧
    (ReScanStreamScan s).nbytes = s.nbytes :=
  ⟨rfl, rfl, rfl, rfl, rfl, rfl⟩

theorem retry_loop_spec (env : InsertEnv) (num_workers : Nat) :
    ∀ fuel ntries, ntries + fuel = num_workers → ntries < num_workers →
      ∃ q tr, retry_loop env num_workers fuel ntries = some (q, tr) ∧
        1 ≤ tr.length ∧ tr.length ≤ fuel ∧
        ∀ i p, tr[i]? = some p → (p.2 = true ↔ ntries + i + 1 = num_workers) := by
  intro fuel
  induction fuel with
  | zero => intro ntries h hlt; omega
  | succ fuel ih =>
    intro ntries h hlt
    by_cases hp : ipc_queue_push_nolock env (env.pick (ntries + 1)) (ntries + 1)
        (decide (ntries + 1 = num_workers)) = true
    · refine ⟨env.pick (ntries + 1),
        [(env.pick (ntries + 1), decide (ntries + 1 = num_workers))], ?_, ?_, ?_, ?_⟩
      · simp only [retry_loop]
        rw [if_pos hp]
      · simp
      · simp
      · intro i p hip
        cases i with
        | zero =>
          simp at hip
          subst hip
          simp
        | succ i' => simp at hip
    · have hflag : ¬(ntries + 1 = num_workers) := by
        intro he
        apply hp
        simp [ipc_queue_push_nolock, he]
      obtain ⟨q, tr, hres, hlen1, hlen2, hflags⟩ := ih (ntries + 1) (by omega) (by omega)
      refine ⟨q, (env.pick (ntries + 1), decide (ntries + 1 = num_workers)) :: tr, ?_, ?_, ?_, ?_⟩
      · simp only [retry_loop]
        rw [if_neg hp, hres]
      · simp
      · exact Nat.succ_le_succ hlen2
      · intro i p hip
        cases i with
        | zero =>
          simp at hip
          subst hip
          simp
        | succ i' =>
          have := hflags i' p (by simpa using hip)
          rw [this]
          omega

/-- C5: a failed push never surfaces to the caller: `ExecStreamInsert`
always completes (given at least one worker queue), the number of push
attempts for one row is bounded by the number of worker queues plus the
initial attempt, and the must-not-fail flag — which makes the underlying
push block until space instead of failing — is passed exactly on the retry
whose count equals the worker count. -/
theorem c5_retry_bounded_blocking (env : InsertEnv) (batch_size num_workers : Nat)
    (sis : StreamInsertState) (len : Nat) (hw : 0 < num_workers) :
    ∃ sis2 tr, ExecStreamInsert env batch_size num_workers sis len = some (sis2, tr) ∧
      tr.length ≤ num_workers + 1 ∧
      ∀ i p, tr[i]? = some p → (p.2 = true ↔ i = num_workers) := by
  cases hq : sis.worker_queue with
  | none =>
    refine ⟨{ sis with count := sis.count + 1, bytes := sis.bytes + len }, [], ?_, by simp, ?_⟩
    · simp [ExecStreamInsert, hq]
    · intro i p hip
      simp at hip
  | some q0 =>
    by_cases hp : ipc_queue_push_nolock env
        (if sis.count != 0 && sis.count % batch_size == 0 then env.pick 0 else q0) 0 false = true
    · have heq : ExecStreamInsert env batch_size num_workers sis len =
        some ({ sis with
            worker_queue := some (if sis.count != 0 && sis.count % batch_size == 0
              then env.pick 0 else q0),
            num_batches := if sis.count != 0 && sis.count % batch_size == 0
              then sis.num_batches + 1 else sis.num_batches,
            count := sis.count + 1, bytes := sis.bytes + len },
          [(if sis.count != 0 && sis.count % batch_size == 0 then env.pick 0 else q0, false)]) := by
        simp only [ExecStreamInsert, hq]
        rw [if_pos hp]
      refine ⟨_, _, heq, by simp, ?_⟩
      intro i p hip
      cases i with
      | zero =>
        simp at hip
        subst hip
        simp
        omega
      | succ i' => simp at hip
    · obtain ⟨q, tr, hres, hlen1, hlen2, hflags⟩ :=
        retry_loop_spec env num_workers num_workers 0 (by omega) hw
      have heq : ExecStreamInsert env batch_size num_workers sis len =
        some ({ sis with
            worker_queue := some q,
            num_batches := (if sis.count != 0 && sis.count % batch_size == 0
              then sis.num_batches + 1 else sis.num_batches) + 1,
            count := sis.count + 1, bytes := sis.bytes + len },
          (if sis.count != 0 && sis.count % batch_size == 0 then env.pick 0 else q0, false) :: tr) := by
        simp only [ExecStreamInsert, hq]
        rw [if_neg hp, hres]
      refine ⟨_, _, heq, ?_, ?_⟩
      · exact Nat.succ_le_succ hlen2
      · intro i p hip
        cases i with
        | zero =>
          simp at hip
          subst hip
          simp
          omega
        | succ i' =>
          have := hflags i' p (by simpa using hip)
          rw [this]
          omega

/-- Oracle for the C6 scenario: every `get_any_worker_queue_with_lock` call
returns queue 1 and every push finds space. -/
def envPickOne : InsertEnv := ⟨fun _ => 1, fun _ => true⟩

/-- A combiner-process insert over 2 workers with group id 0: pinned to
queue `0 % 2 = 0` at `BeginStreamModify` (synchronous off, one reader,
batch size 1 in the scenario below). -/
def sisCombiner : StreamInsertState := BeginStreamModify false true 0 2 0 99 [7] false

/-- The state after the combiner's first row: one row counted, still on the
pinned queue 0. -/
def sisCombiner1 : StreamInsertState := { sisCombiner with count := 1, bytes := 4 }

/-- C6 evaluated at a failing input: a combiner pinned to queue 0 pushes
its first row there, but with `continuous_query_batch_size = 1` the second
row hits the batch-boundary switch, which calls
`get_any_worker_queue_with_lock` regardless of `IsContQueryCombinerProcess`
and lands the row on queue 1 ≠ 0 — contradicting the code's own comment
that a combiner always writes to the same worker. -/
theorem c6_combiner_rerouted_at_batch_boundary :
    sisCombiner.worker_queue = some (0 % 2) ∧
    ExecStreamInsert envPickOne 1 2 sisCombiner 4 = some (sisCombiner1, [(0, false)]) ∧
    ExecStreamInsert envPickOne 1 2 sisCombiner1 4 =
      some ({ sisCombiner1 with
          worker_queue := some 1, count := 2, bytes := 8, num_batches := 2 },
        [(1, false)]) := by
  refine ⟨rfl, ?_, ?_⟩ <;> decide

/-- C7: with no registered readers at insert-open, `BeginStreamModify`
acquires no worker queue and creates no batch or acknowledgment state; each
inserted row is serialized (its serialized length `len` still accrues) but
pushed to no queue while the row and byte counters advance, and
`EndStreamModify` performs no acknowledgment wait. -/
theorem c7_no_readers_noop (synchronous is_combiner : Bool)
    (group_id num_workers batch_id any_queue : Nat) (re : Bool)
    (env : InsertEnv) (batch_size len : Nat) (sis : StreamInsertState) :
    (BeginStreamModify synchronous is_combiner group_id num_workers batch_id any_queue [] re =
      { reentrant := re, targets := [], ack := false, batch := none,
        count := 0, bytes := 0, num_batches := 1, worker_queue := none }) ∧
    (sis.worker_queue = none →
      ExecStreamInsert env batch_size num_workers sis len =
        some ({ sis with count := sis.count + 1, bytes := sis.bytes + len }, []) ∧
      EndStreamModify synchronous sis = none) := by
  constructor
  · rfl
  · intro h
    constructor
    · simp [ExecStreamInsert, h]
    · simp [EndStreamModify, h]

/-- C8: the blocking acknowledgment wait with expected count `sis.count`
(the number of rows inserted) runs if and only if a worker queue was
acquired (the reader set was non-empty), the insert is not re-entrant, and
synchronous delivery is on; `BeginStreamModify` acquires a queue exactly
when the reader set is non-empty. -/
theorem c8_ack_wait_iff (synchronous : Bool) (sis : StreamInsertState)
    (is_combiner : Bool) (group_id num_workers batch_id any_queue : Nat)
    (targets : List Nat) (re : Bool) :
    (EndStreamModify synchronous sis =
      if sis.worker_queue.isSome = true ∧ sis.reentrant = false ∧ synchronous = true
      then some (sis.batch, sis.count) else none) ∧
    ((BeginStreamModify synchronous is_combiner group_id num_workers batch_id any_queue
        targets re).worker_queue.isSome = !targets.isEmpty) := by
  constructor
  · cases hq : sis.worker_queue with
    | none => simp [EndStreamModify, hq]
    | some q =>
      cases hre : sis.reentrant with
      | false =>
        cases synchronous with
        | false => simp [EndStreamModify, hq, hre]
        | true => simp [EndStreamModify, hq, hre]
      | true =>
        cases synchronous with
        | false => simp [EndStreamModify, hq, hre]
        | true => simp [EndStreamModify, hq, hre]
  · cases targets with
    | nil => simp [BeginStreamModify]
    | cons t rest => simp [BeginStreamModify]

/-! Concrete instances used by the witnesses: the spec's §8 scenario
(source `{a:int, B:text}`, destination `{A:text, c:int}`), a destination
with the reserved arrival-time column, and small insert-router states. -/

def attrA : Attr := ⟨strBytes "a", 23, -1, 0⟩

def attrB : Attr := ⟨strBytes "B", 25, -1, 0⟩

def evdW : TupleDesc := ⟨[attrA, attrB]⟩

def ddW : TupleDesc := ⟨[⟨strBytes "A", 25, -1, 0⟩, ⟨strBytes "c", 23, -1, 0⟩]⟩

def piW : StreamProjectionInfo := ⟨evdW, ddW, evdW, map_field_positions evdW ddW, none⟩

def stsW : StreamTupleState := ⟨[9, 9], [some 42, some 7], 5⟩

theorem c1_witness :
    (map_field_positions evdW ddW).length = evdW.attrs.length ∧
    (exec_stream_project tsTrivial piW stsW).2[1]? = some true :=
  ⟨(c1_field_map_and_null_preservation evdW ddW tsTrivial piW stsW 1 1).1,
   (c1_field_map_and_null_preservation evdW ddW tsTrivial piW stsW 1 1).2.2
     (by decide) (by decide) (by decide)⟩

def unpackW : List Nat → TupleDesc := fun _ => evdW

def scanW : StreamScanState := ⟨⟨⟨[]⟩, ddW, ⟨[]⟩, [], none⟩, 0, 0⟩

def stsW1 : StreamTupleState := ⟨[9, 9], [some 1, some 2], 3⟩

theorem c2_witness :
    (IterateStreamScan tsTrivial unpackW
      ((IterateStreamScan tsTrivial unpackW scanW (some (stsW1, 3))).2.1)
      (some (stsW1, 3))).2.2 = false ∧
    (IterateStreamScan tsTrivial unpackW
      ((IterateStreamScan tsTrivial unpackW scanW (some (stsW1, 3))).2.1)
      (some (stsW1, 3))).2.1.pi =
      (IterateStreamScan tsTrivial unpackW scanW (some (stsW1, 3))).2.1.pi :=
  (c2_descriptor_cache tsTrivial unpackW scanW stsW1 stsW1 3 3).2 rfl

def castFn : Datum → Datum × Bool := fun v => (v + 1000, false)

def tsCast : TypeSystem := ⟨fun _ _ _ _ _ => some castFn, fun _ _ => [], fun _ _ => 0⟩

def tsSlow : TypeSystem := ⟨fun _ _ _ _ _ => none, fun t v => [t, v], fun t s => t + s.length⟩

def piC3 : StreamProjectionInfo := ⟨evdW, ddW, evdW, [0, -1], none⟩

theorem c3_witness :
    (exec_stream_project tsCast piC3 stsW).1[0]? = some (castFn 42).1 ∧
    (exec_stream_project tsSlow piC3 stsW).1[0]? =
      some (tsSlow.typeInput 25 (tsSlow.typeOutput 23 42)) :=
  ⟨((c3_coercion_two_tier tsCast piC3 stsW [] [(attrB, -1, some 7)] attrA 0 42
      (by decide) (by decide) (by decide) (by decide) (by decide)).1 castFn rfl).1,
   ((c3_coercion_two_tier tsSlow piC3 stsW [] [(attrB, -1, some 7)] attrA 0 42
      (by decide) (by decide) (by decide) (by decide) (by decide)).2 rfl).1⟩

def attrAT : Attr := ⟨strBytes "arrival_timestamp", 1184, -1, 0⟩

def evdAT : TupleDesc := ⟨[attrAT]⟩

def piAT : StreamProjectionInfo := ⟨evdAT, ⟨[attrAT]⟩, evdAT, [0], none⟩

def stsAT : StreamTupleState := ⟨[], [some 42], 99⟩

theorem c4_witness :
    (exec_stream_project tsTrivial piAT stsAT).1[0]? = some 99 ∧
    (exec_stream_project tsTrivial piAT stsAT).2[0]? = some false :=
  c4_arrival_time_override tsTrivial piAT stsAT 0 (by decide)

/-- Oracle with every queue full on plain pushes: `ok` always false, so a
row only lands through the final must-not-fail push. -/
def envAllFull : InsertEnv := ⟨fun _ => 0, fun _ => false⟩

def sisW5 : StreamInsertState := BeginStreamModify true false 0 2 3 1 [4] false

theorem c5_witness :
    0 < 2 ∧ ∃ sis2 tr, ExecStreamInsert envAllFull 5 2 sisW5 4 = some (sis2, tr) ∧
      tr.length ≤ 2 + 1 ∧ ∀ i p, tr[i]? = some p → (p.2 = true ↔ i = 2) :=
  ⟨by decide, c5_retry_bounded_blocking envAllFull 5 2 sisW5 4 (by decide)⟩

def sisEmptyW : StreamInsertState := BeginStreamModify true false 0 2 3 1 [] false

theorem c7_witness :
    ExecStreamInsert envAllFull 5 2 sisEmptyW 6 =
      some ({ sisEmptyW with count := sisEmptyW.count + 1, bytes := sisEmptyW.bytes + 6 }, []) ∧
    EndStreamModify true sisEmptyW = none :=
  (c7_no_readers_noop true false 0 2 3 1 false envAllFull 5 6 sisEmptyW).2 rfl

def cn9 : List (List Nat) := [strBytes "x", strBytes "y"]

def scan9 : StreamScanState := ⟨⟨⟨[]⟩, setAttNames ddW cn9, ⟨[]⟩, [], none⟩, 0, 0⟩

theorem c9_witness :
    (BeginStreamScan cn9 ddW).isSome = true ∧
    scan9.pi.resultdesc.attrs.map Attr.attname = cn9 :=
  ⟨(c9_schema_mismatch_fatal cn9 ddW).1.mpr (by decide),
   (c9_schema_mismatch_fatal cn9 ddW).2 scan9 (by decide)⟩

end StreamFdw
